import Mathlib

/-!
Verification of the `cultivate` event-monitoring pipeline.

This file gives a shallow embedding, in Lean 4, of the parts of the
repository that the specification's claims are about:

* `Md5` — an executable MD5 (RFC 1321) over byte lists, modelling Python's
  `hashlib.md5(...).hexdigest()`, which the code uses to derive
  content-hash event ids (`modules/blockchain.py`, `modules/discord_bot.py`).
* `Cultivate.Cache` — the process-wide singleton cache (`utils/cache.py`).
* `Cultivate.Client` — retry/backoff and cache fallback of
  `blockchain/client.py` (`AptosClient._retry_async`,
  `_fetch_with_fallback`, `_cache_result`).
* `Cultivate.Monitor` — cursor, fetch, enrichment and dispatch of
  `modules/blockchain.py` (`BlockchainMonitor`), the Discord sink dedup of
  `modules/discord_bot.py` (`DiscordBot.post_blockchain_event`), and the
  cursor-file save (`_save_last_processed_version`).
* `Cultivate.Worker` — the adaptive polling interval of
  `main.py` (`AptosAI._blockchain_worker`).

Machine reals (Python floats) are modelled by `ℚ`; event ledger versions
and sequence numbers by `ℕ`; the wall clock (`datetime.now()` /
`time.time()`) is passed in explicitly as a parameter.
-/

namespace Md5

/-- 2^32, the word modulus of MD5. -/
def M32 : Nat := 4294967296

/-- Left-rotate a 32-bit word (represented as a `Nat < 2^32`) by `n` bits. -/
def rotl (x n : Nat) : Nat :=
  ((x <<< n) % M32) ||| (x >>> (32 - n))

/-- Bitwise complement on 32-bit words. -/
def compl32 (x : Nat) : Nat := x ^^^ (M32 - 1)

/-- The 64 MD5 round constants `K[i] = floor(2^32 * |sin(i+1)|)` (RFC 1321). -/
def K : List Nat :=
  [3614090360, 3905402710, 606105819, 3250441966, 4118548399, 1200080426,
   2821735955, 4249261313, 1770035416, 2336552879, 4294925233, 2304563134,
   1804603682, 4254626195, 2792965006, 1236535329, 4129170786, 3225465664,
   643717713, 3921069994, 3593408605, 38016083, 3634488961, 3889429448,
   568446438, 3275163606, 4107603335, 1163531501, 2850285829, 4243563512,
   1735328473, 2368359562, 4294588738, 2272392833, 1839030562, 4259657740,
   2763975236, 1272893353, 4139469664, 3200236656, 681279174, 3936430074,
   3572445317, 76029189, 3654602809, 3873151461, 530742520, 3299628645,
   4096336452, 1126891415, 2878612391, 4237533241, 1700485571, 2399980690,
   4293915773, 2240044497, 1873313359, 4264355552, 2734768916, 1309151649,
   4149444226, 3174756917, 718787259, 3951481745]

/-- The 64 per-round left-rotation amounts (RFC 1321). -/
def S : List Nat :=
  [7, 12, 17, 22, 7, 12, 17, 22, 7, 12, 17, 22, 7, 12, 17, 22,
   5, 9, 14, 20, 5, 9, 14, 20, 5, 9, 14, 20, 5, 9, 14, 20,
   4, 11, 16, 23, 4, 11, 16, 23, 4, 11, 16, 23, 4, 11, 16, 23,
   6, 10, 15, 21, 6, 10, 15, 21, 6, 10, 15, 21, 6, 10, 15, 21]

/-- Little-endian byte decomposition of `n` into `k` bytes. -/
def leBytes : Nat → Nat → List Nat
  | 0, _ => []
  | k + 1, n => (n % 256) :: leBytes k (n / 256)

/-- The `g`-th little-endian 32-bit word of a 64-byte chunk. -/
def word (chunk : List Nat) (g : Nat) : Nat :=
  chunk.getD (4 * g) 0 + chunk.getD (4 * g + 1) 0 * 256 +
    chunk.getD (4 * g + 2) 0 * 65536 + chunk.getD (4 * g + 3) 0 * 16777216

/-- MD5 padding: append `0x80`, zeros to 56 mod 64, then the 64-bit
little-endian bit length. -/
def pad (msg : List Nat) : List Nat :=
  let len := msg.length
  let zeros := (119 - len % 64) % 64
  msg ++ 128 :: List.replicate zeros 0 ++ leBytes 8 ((len * 8) % 2 ^ 64)

/-- One MD5 round `i` on the working state `(a, b, c, d)` for chunk words `m`. -/
def round (m : Nat → Nat) (st : Nat × Nat × Nat × Nat) (i : Nat) :
    Nat × Nat × Nat × Nat :=
  let (a, b, c, d) := st
  let fg : Nat × Nat :=
    if i < 16 then ((b &&& c) ||| (compl32 b &&& d), i)
    else if i < 32 then ((d &&& b) ||| (compl32 d &&& c), (5 * i + 1) % 16)
    else if i < 48 then (b ^^^ c ^^^ d, (3 * i + 5) % 16)
    else (c ^^^ (b ||| compl32 d), (7 * i) % 16)
  let f := (fg.1 + a + K.getD i 0 + m fg.2) % M32
  (d, (b + rotl f (S.getD i 0)) % M32, b, c)

/-- Process one 64-byte chunk, updating the 4-word digest state. -/
def processChunk (st : Nat × Nat × Nat × Nat) (chunk : List Nat) :
    Nat × Nat × Nat × Nat :=
  let (a0, b0, c0, d0) := st
  let m := word chunk
  let r := (List.range 64).foldl (round m) (a0, b0, c0, d0)
  ((a0 + r.1) % M32, (b0 + r.2.1) % M32, (c0 + r.2.2.1) % M32,
   (d0 + r.2.2.2) % M32)

/-- MD5 digest of a byte list, as the 16 digest bytes. -/
def digestBytes (msg : List Nat) : List Nat :=
  let p := pad msg
  let n := p.length / 64
  let st := (List.range n).foldl
    (fun st i => processChunk st ((p.drop (64 * i)).take 64))
    (1732584193, 4023233417, 2562383102, 271733878)
  leBytes 4 st.1 ++ leBytes 4 st.2.1 ++ leBytes 4 st.2.2.1 ++ leBytes 4 st.2.2.2

/-- One hex digit. -/
def hexDigit (n : Nat) : Char :=
  "0123456789abcdef".toList.getD n 'x'

/-- Two-digit lowercase hex of a byte. -/
def hexByte (b : Nat) : String :=
  String.mk [hexDigit (b / 16), hexDigit (b % 16)]

/-- Hex digest string, as returned by Python's `hexdigest()`. -/
def hexDigest (msg : List Nat) : String :=
  String.join ((digestBytes msg).map hexByte)

/-- Bytes of a string (our inputs are ASCII, where UTF-8 encoding is the
identity on code points), modelling Python's `str.encode()`. -/
def strBytes (s : String) : List Nat :=
  s.toList.map Char.toNat

/-- `hashlib.md5(s.encode()).hexdigest()`. -/
def md5Hex (s : String) : String :=
  hexDigest (strBytes s)

end Md5

namespace Cultivate

/-- The nested `data['id']['token_data_id']` structure of a raw token event
(`modules/blockchain.py`, `_enrich_event`). -/
structure TokenDataId where
  collection : Option String
  name : Option String
deriving DecidableEq

/-- The `data` blob of a raw event, restricted to the keys the pipeline
reads: `id.token_data_id`, `amount`, `type`, `from`, `to`, `creator`. -/
structure EventData where
  tokenDataId : Option TokenDataId
  amount : Option String
  typ : Option String
  fromAddr : Option String
  toAddr : Option String
  creator : Option String
deriving DecidableEq

/-- A raw event dict as it reaches `process_events` / `_enrich_event`.
`Option` marks keys that may be absent.  Ledger versions and sequence
numbers are modelled as `ℕ`. -/
structure RawEvt where
  version : Option Nat := none
  sequenceNumber : Option Nat := none
  transactionVersion : Option Nat := none
  timestamp : Option String := none
  eventType : Option String := none
  eventHandle : Option String := none
  fieldName : Option String := none
  account : Option String := none
  typ : Option String := none
  data : Option EventData := none
  idKey : Option String := none
deriving DecidableEq

/-- JSON values as produced by the pipeline (no arrays or booleans occur in
the dicts it hashes). -/
inductive JVal where
  | s (v : String)
  | n (v : Nat)
  | q (v : ℚ)
  | o (fields : List (String × JVal))

/-- JSON string escaping (only quote and backslash can occur escaped in the
strings this pipeline builds). -/
def escChar (c : Char) : String :=
  if c = '"' then "\\\"" else if c = '\\' then "\\\\" else String.singleton c

/-- A JSON string literal. -/
def jsStr (v : String) : String :=
  "\"" ++ String.join (v.toList.map escChar) ++ "\""

/-- Decimal digits of the fractional part `r / d` (fuel-bounded; all
rationals in this development have denominator dividing `10 ^ 8`). -/
def fracDigits : Nat → Nat → Nat → String
  | 0, _, _ => ""
  | _, 0, _ => ""
  | fuel + 1, r, d =>
    String.singleton (Md5.hexDigit (r * 10 / d)) ++ fracDigits fuel (r * 10 % d) d

/-- Python `repr` of a nonnegative float whose value is an exactly
representable decimal (e.g. `1.0`, `1.5`). -/
def qReprNN (v : ℚ) : String :=
  let n := v.num.toNat
  let d := v.den
  toString (n / d) ++ "." ++ (if n % d = 0 then "0" else fracDigits 17 (n % d) d)

/-- Python `repr` of a float (decimal-exact values only). -/
def qRepr (v : ℚ) : String :=
  if v < 0 then "-" ++ qReprNN (-v) else qReprNN v

/-- Lexicographic order on character lists by code point (how Python
compares strings). -/
def ltCharList : List Char → List Char → Bool
  | [], [] => false
  | [], _ :: _ => true
  | _ :: _, [] => false
  | a :: as, b :: bs =>
    if a.toNat < b.toNat then true
    else if b.toNat < a.toNat then false
    else ltCharList as bs

/-- String comparison by code points. -/
def strLt (a b : String) : Bool :=
  ltCharList a.toList b.toList

/-- Insert a keyed string into a key-sorted list. -/
def insertSorted (p : String × String) :
    List (String × String) → List (String × String)
  | [] => [p]
  | r :: rest => if strLt p.1 r.1 then p :: r :: rest else r :: insertSorted p rest

/-- Sort key/value pairs by key (what `json.dumps(..., sort_keys=True)` and
`sorted(d.items())` do for dicts with distinct string keys). -/
def sortByKey (l : List (String × String)) : List (String × String) :=
  l.foldr insertSorted []

/-- Serialize a JSON value the way `json.dumps(..., sort_keys=True)` does
with default separators (`", "` and `": "`).  The recursion is bounded by
an explicit nesting-depth fuel so it reduces definitionally; the dicts
this pipeline serializes nest at most four levels deep. -/
def serJVal : Nat → JVal → String
  | _, .s v => jsStr v
  | _, .n v => toString v
  | _, .q v => qRepr v
  | 0, .o _ => ""
  | fuel + 1, .o fields =>
    "\x7b" ++ String.intercalate ", "
      ((sortByKey (fields.map fun p => (p.1, serJVal fuel p.2))).map
        fun p => jsStr p.1 ++ ": " ++ p.2)
      ++ "\x7d"

/-- `json.dumps(d, sort_keys=True)` of an object. -/
def jsonDumps (fields : List (String × JVal)) : String :=
  serJVal 8 (.o fields)

/-- Does the second character list start with the first? -/
def startsWithList : List Char → List Char → Bool
  | [], _ => true
  | _ :: _, [] => false
  | p :: ps, c :: cs => p = c && startsWithList ps cs

/-- Does the pattern occur (contiguously) in the haystack? -/
def hasSubList (hay pat : List Char) : Bool :=
  match hay with
  | [] => pat.isEmpty
  | _ :: cs => startsWithList pat hay || hasSubList cs pat

/-- Python's `pat in s` substring test (for the nonempty patterns used by
the classifier). -/
def containsSub (s pat : String) : Bool :=
  hasSubList s.toList pat.toList

/-- `https://explorer.aptoslabs.com` (`BlockchainMonitor.explorer_url`). -/
def explorerUrl : String := "https://explorer.aptoslabs.com"

/-- The `event_type` the enrichment works with: the event's own
`event_type` if present, else `f"{event_handle}/{field_name}"`. -/
def eventTypeOf (e : RawEvt) : String :=
  match e.eventType with
  | some t => t
  | none => e.eventHandle.getD "" ++ "/" ++ e.fieldName.getD ""

/-- Classification of `_enrich_event`: substring lookup on the event type,
defaulting to `"other"`. -/
def eventCategoryOf (e : RawEvt) : String :=
  let t := eventTypeOf e
  if containsSub t "::token::TokenStore/deposit_events" then "token_deposit"
  else if containsSub t "::token::TokenStore/withdraw_events" then "token_withdrawal"
  else if containsSub t "coin::CoinStore" then "coin_transfer"
  else "other"

/-- `float(s)` on the nonnegative integer strings the chain reports for
amounts; `none` models the `except: pass` on a parse failure. -/
def parseAmount (s : String) : Option ℚ :=
  if s.length > 0 && s.toList.all Char.isDigit then
    some ((s.toList.foldl (fun a c => a * 10 + (c.toNat - 48)) 0 : ℕ) : ℚ)
  else none

/-- `enriched['token_name']`, set when `data.id.token_data_id.name` exists. -/
def tokenNameOf (e : RawEvt) : Option String :=
  e.data.bind (·.tokenDataId) |>.bind (·.name)

/-- `enriched['collection_name']`, from `data.id.token_data_id.collection`. -/
def collectionNameOf (e : RawEvt) : Option String :=
  e.data.bind (·.tokenDataId) |>.bind (·.collection)

/-- `enriched['amount']`: the raw amount string, when `data` has one. -/
def rawAmountOf (e : RawEvt) : Option String :=
  e.data.bind (·.amount)

/-- `enriched['amount_apt'] = float(data['amount']) / 100000000`, set only
for `coin_transfer`-classified events whose amount parses. -/
def amountAptOf (e : RawEvt) : Option ℚ :=
  if eventCategoryOf e = "coin_transfer" then
    (rawAmountOf e |>.bind parseAmount).map (· / 100000000)
  else none

/-- The `simplified_data` dict (`enriched['details']`), in insertion order:
collection, token name, amount, then `type`/`from`/`to`/`creator`. -/
def simplifiedData (e : RawEvt) : List (String × String) :=
  match e.data with
  | none => []
  | some d =>
    (match d.tokenDataId with
     | none => []
     | some tid =>
       (match tid.collection with
        | some c => [("collection", c)] | none => []) ++
       (match tid.name with
        | some n => [("token_name", n)] | none => [])) ++
    (match d.amount with | some a => [("amount", a)] | none => []) ++
    (match d.typ with | some v => [("type", v)] | none => []) ++
    (match d.fromAddr with | some v => [("from", v)] | none => []) ++
    (match d.toAddr with | some v => [("to", v)] | none => []) ++
    (match d.creator with | some v => [("creator", v)] | none => [])

/-- Fixed 8-decimal formatting of a nonnegative rational, modelling
Python's `f"{x:.8f}"` on the exactly representable amounts (`n / 10^8`). -/
def fmt8 (v : ℚ) : String :=
  let n := (v * 100000000).floor.toNat
  let frac := toString (n % 100000000)
  toString (n / 100000000) ++ "." ++
    String.mk (List.replicate (8 - frac.length) '0') ++ frac

/-- `enriched['description']`, by category. -/
def descriptionOf (e : RawEvt) : String :=
  let cat := eventCategoryOf e
  if cat = "token_deposit" then
    "Token deposit: " ++ (tokenNameOf e).getD "token" ++ " from " ++
      (collectionNameOf e).getD "collection"
  else if cat = "token_withdrawal" then
    "Token withdrawal: " ++ (tokenNameOf e).getD "token" ++ " from " ++
      (collectionNameOf e).getD "collection"
  else if cat = "coin_transfer" then
    "Coin transfer: " ++ fmt8 ((amountAptOf e).getD 0) ++ " APT"
  else
    "Blockchain event: " ++ eventTypeOf e

/-- `enriched['transaction_url']`, present only when the event has a
`version`; the clean event defaults it to the empty string. -/
def transactionUrlOf (e : RawEvt) : Option String :=
  e.version.map fun v => explorerUrl ++ "/txn/" ++ toString v

/-- `enriched['account_url']`, present only when the event has an account. -/
def accountUrlOf (e : RawEvt) : Option String :=
  e.account.map fun a => explorerUrl ++ "/account/" ++ a

/-- A key/value pair that is present only when the value is. -/
def optPair (k : String) (v : Option JVal) : List (String × JVal) :=
  match v with
  | some jv => [(k, jv)]
  | none => []

/-- JSON form of the nested `data` blob. -/
def dataJVal (d : EventData) : JVal :=
  .o (optPair "id" (d.tokenDataId.map fun tid =>
        .o [("token_data_id", .o (optPair "collection" (tid.collection.map .s) ++
                                  optPair "name" (tid.name.map .s)))]) ++
      optPair "amount" (d.amount.map .s) ++
      optPair "type" (d.typ.map .s) ++
      optPair "from" (d.fromAddr.map .s) ++
      optPair "to" (d.toAddr.map .s) ++
      optPair "creator" (d.creator.map .s))

/-- The full `enriched` dict of `_enrich_event` at the point where the
content-hash id is computed (original keys plus everything the enrichment
added), with `ts` the event timestamp in effect.  Key order is irrelevant:
`json.dumps(..., sort_keys=True)` sorts. -/
def enrichedPairs (e : RawEvt) (ts : String) : List (String × JVal) :=
  optPair "version" (e.version.map .n) ++
  optPair "sequence_number" (e.sequenceNumber.map .n) ++
  optPair "transaction_version" (e.transactionVersion.map .n) ++
  optPair "account" (e.account.map .s) ++
  optPair "event_handle" (e.eventHandle.map .s) ++
  optPair "field_name" (e.fieldName.map .s) ++
  optPair "type" (e.typ.map .s) ++
  optPair "data" (e.data.map dataJVal) ++
  [("timestamp", .s ts), ("event_type", .s (eventTypeOf e)),
   ("event_category", .s (eventCategoryOf e))] ++
  optPair "transaction_url" ((transactionUrlOf e).map .s) ++
  optPair "account_url" ((accountUrlOf e).map .s) ++
  optPair "amount" ((rawAmountOf e).map .s) ++
  optPair "amount_apt" ((amountAptOf e).map .q) ++
  optPair "token_name" ((tokenNameOf e).map .s) ++
  optPair "collection_name" ((collectionNameOf e).map .s) ++
  [("details", .o ((simplifiedData e).map fun p => (p.1, .s p.2))),
   ("description", .s (descriptionOf e)),
   ("importance_score", .q 1)]

/-- `enriched['id']`: the event's own top-level `id` if it had one, else
`hashlib.md5(json.dumps(enriched, sort_keys=True).encode()).hexdigest()`. -/
def idOf (e : RawEvt) (ts : String) : String :=
  match e.idKey with
  | some i => i
  | none => Md5.md5Hex (jsonDumps (enrichedPairs e ts))

/-- The `clean_event` dict that `_enrich_event` returns. -/
structure CleanEvent where
  id : String
  eventType : String
  eventCategory : String
  timestamp : String
  account : String
  version : Option Nat
  description : String
  details : List (String × String)
  transactionUrl : String
  accountUrl : String
  tokenName : Option String
  collectionName : Option String
  amountApt : Option ℚ
deriving DecidableEq

/-- `BlockchainMonitor._enrich_event`, with `now` the value of
`datetime.now().isoformat()` during the call (used only when the raw event
carries no timestamp). -/
def enrich (e : RawEvt) (now : String) : CleanEvent :=
  let ts := e.timestamp.getD now
  { id := idOf e ts
    eventType := eventTypeOf e
    eventCategory := eventCategoryOf e
    timestamp := ts
    account := e.account.getD ""
    version := e.version
    description := descriptionOf e
    details := simplifiedData e
    transactionUrl := (transactionUrlOf e).getD ""
    accountUrl := (accountUrlOf e).getD ""
    tokenName := tokenNameOf e
    collectionName := collectionNameOf e
    amountApt := amountAptOf e }

/-! ### Python `repr`-style serializations used for hash-fallback ids -/

/-- Python `repr` of one of this pipeline's strings (they contain no
apostrophes, so `repr` uses single quotes). -/
def pyStr (s : String) : String :=
  let q := String.singleton (Char.ofNat 39)
  q ++ s ++ q

/-- Python `repr` of a string-valued dict, in insertion order. -/
def pyDictRepr (l : List (String × String)) : String :=
  "\x7b" ++ String.intercalate ", " (l.map fun p => pyStr p.1 ++ ": " ++ pyStr p.2)
    ++ "\x7d"

/-- Python `str(sorted(event.items()))` for a clean (enriched) event dict:
a list of `(key, value)` tuples sorted by key. -/
def pyReprClean (c : CleanEvent) : String :=
  let items : List (String × String) :=
    [("account", pyStr c.account), ("account_url", pyStr c.accountUrl)] ++
    (match c.amountApt with
     | some v => [("amount_apt", qRepr v)] | none => []) ++
    (match c.collectionName with
     | some v => [("collection_name", pyStr v)] | none => []) ++
    [("description", pyStr c.description), ("details", pyDictRepr c.details),
     ("event_category", pyStr c.eventCategory),
     ("event_type", pyStr c.eventType), ("id", pyStr c.id),
     ("timestamp", pyStr c.timestamp)] ++
    (match c.tokenName with
     | some v => [("token_name", pyStr v)] | none => []) ++
    [("transaction_url", pyStr c.transactionUrl),
     ("version", match c.version with
                 | some v => toString v | none => pyStr "")]
  "[" ++ String.intercalate ", "
    ((sortByKey items).map fun p => "(" ++ pyStr p.1 ++ ", " ++ p.2 ++ ")")
    ++ "]"

/-- Python `repr` of a raw event's `data` blob (modelled insertion order:
`id`, `amount`, `type`, `from`, `to`, `creator`). -/
def pyReprData (d : EventData) : String :=
  let tidPairs (tid : TokenDataId) : List String :=
    (match tid.collection with
     | some c => [pyStr "collection" ++ ": " ++ pyStr c] | none => []) ++
    (match tid.name with
     | some n => [pyStr "name" ++ ": " ++ pyStr n] | none => [])
  let pairs : List String :=
    (match d.tokenDataId with
     | some tid =>
       [pyStr "id" ++ ": \x7b" ++ pyStr "token_data_id" ++ ": \x7b" ++
         String.intercalate ", " (tidPairs tid) ++ "\x7d\x7d"]
     | none => []) ++
    (match d.amount with
     | some a => [pyStr "amount" ++ ": " ++ pyStr a] | none => []) ++
    (match d.typ with
     | some v => [pyStr "type" ++ ": " ++ pyStr v] | none => []) ++
    (match d.fromAddr with
     | some v => [pyStr "from" ++ ": " ++ pyStr v] | none => []) ++
    (match d.toAddr with
     | some v => [pyStr "to" ++ ": " ++ pyStr v] | none => []) ++
    (match d.creator with
     | some v => [pyStr "creator" ++ ": " ++ pyStr v] | none => [])
  "\x7b" ++ String.intercalate ", " pairs ++ "\x7d"

/-- Python `str(sorted(event.items()))` for a raw event dict (only the
keys the model carries; used for the content-hash id fallback). -/
def pyReprRaw (e : RawEvt) : String :=
  let items : List (String × String) :=
    (match e.account with
     | some v => [("account", pyStr v)] | none => []) ++
    (match e.data with
     | some d => [("data", pyReprData d)] | none => []) ++
    (match e.eventHandle with
     | some v => [("event_handle", pyStr v)] | none => []) ++
    (match e.eventType with
     | some v => [("event_type", pyStr v)] | none => []) ++
    (match e.fieldName with
     | some v => [("field_name", pyStr v)] | none => []) ++
    (match e.idKey with
     | some v => [("id", pyStr v)] | none => []) ++
    (match e.sequenceNumber with
     | some v => [("sequence_number", toString v)] | none => []) ++
    (match e.timestamp with
     | some v => [("timestamp", pyStr v)] | none => []) ++
    (match e.transactionVersion with
     | some v => [("transaction_version", toString v)] | none => []) ++
    (match e.typ with
     | some v => [("type", pyStr v)] | none => []) ++
    (match e.version with
     | some v => [("version", toString v)] | none => [])
  "[" ++ String.intercalate ", "
    ((sortByKey items).map fun p => "(" ++ pyStr p.1 ++ ", " ++ p.2 ++ ")")
    ++ "]"

/-! ### The polling monitor (`modules/blockchain.py`) and the Discord sink -/

/-- The event id derived by `process_events`: `(version, sequence_number)`
pair first, then `transaction_version`, then an MD5 content hash over the
sorted event items. -/
def eventId (e : RawEvt) : String :=
  match e.version, e.sequenceNumber with
  | some v, some sq => toString v ++ "_" ++ toString sq
  | _, _ =>
    match e.transactionVersion with
    | some tv => toString tv
    | none => Md5.md5Hex (pyReprRaw e)

/-- The id `DiscordBot.post_blockchain_event` derives for a clean event.
Clean events always contain a `version` key but never `sequence_number`
or `transaction_version`, so the content-hash branch is always taken
there. -/
def discordEventId (c : CleanEvent) : String :=
  Md5.md5Hex (pyReprClean c)

/-- The monitor-side mutable state the claims are about: the in-memory
cursor (`last_processed_version`), the persisted cursor file
(`last_version.txt`), the list of event ids handed to registered
callbacks, and the Discord sink's `posted_events` dedup set (kept in
insertion order) with its log of enqueued posts.  (Metrics counters and
the capped `recent_events` buffer are not claim-relevant and are left
out.) -/
structure MonitorState where
  last : Nat
  file : String
  dispatches : List String
  postedEvents : List String
  discordPosted : List String
deriving DecidableEq

/-- `DiscordBot.post_blockchain_event`: skip ids already in
`posted_events`; otherwise record the id (evicting to the most recent 500
once the set exceeds 1000 — the Python evicts an arbitrary 500-element
subset of a `set`; the model keeps the newest) and enqueue the embed. -/
def postBlockchainEvent (c : CleanEvent) (s : MonitorState) :
    Bool × MonitorState :=
  let eid := discordEventId c
  if eid ∈ s.postedEvents then (false, s)
  else
    let posted := s.postedEvents ++ [eid]
    let posted := if posted.length > 1000 then posted.drop (posted.length - 500)
                  else posted
    (true, { s with postedEvents := posted,
                    discordPosted := s.discordPosted ++ [eid] })

/-- The per-event body of `BlockchainMonitor.process_events`, run for each
event whose id is not yet in the call-local `processed_event_ids` set:
advance and persist the cursor when the event's version exceeds it, then
(every event being significant per `_is_significant_event`) enrich and
dispatch — first to the Discord sink when one is attached, then to the
registered callbacks. -/
def processStep (now : String) (discord : Bool) (e : RawEvt)
    (s : MonitorState) : MonitorState :=
  let ev := e.version.getD 0
  let s1 := if s.last < ev then { s with last := ev, file := toString ev }
            else s
  let s2 := if discord then (postBlockchainEvent (enrich e now) s1).2 else s1
  { s2 with dispatches := s2.dispatches ++ [eventId e] }

/-- The loop of `BlockchainMonitor.process_events`, carrying the
call-local `processed_event_ids` set (`seen`): events whose id was already
processed in this call are skipped. -/
def processGo (now : String) (discord : Bool) :
    List RawEvt → List String → MonitorState → MonitorState
  | [], _, s => s
  | e :: rest, seen, s =>
    if eventId e ∈ seen then processGo now discord rest seen s
    else processGo now discord rest (eventId e :: seen)
      (processStep now discord e s)

/-- `BlockchainMonitor.process_events` with a fresh (call-local)
`processed_event_ids` set. -/
def processEvents (now : String) (events : List RawEvt) (discord : Bool)
    (s : MonitorState) : MonitorState :=
  processGo now discord events [] s

/-- An event handle `{account, event_handle, field_name}`. -/
structure Handle where
  account : String
  eventHandle : String
  fieldName : String
deriving DecidableEq

/-- The `event["type"]` tag `fetch_events` assigns from the handle. -/
def tagType (h : Handle) : String :=
  let hf := h.eventHandle ++ "/" ++ h.fieldName
  if containsSub hf "token::TokenStore/deposit_events" then "token_deposit"
  else if containsSub hf "token::TokenStore/withdraw_events" then "token_withdrawal"
  else if containsSub hf "coin::CoinStore/deposit_events" then "coin_deposit"
  else if containsSub hf "coin::CoinStore/withdraw_events" then "coin_withdrawal"
  else "other"

/-- The per-event enrichment `fetch_events` performs before collecting:
account, handle, field and type tags. -/
def tagEvent (h : Handle) (e : RawEvt) : RawEvt :=
  { e with account := some h.account, eventHandle := some h.eventHandle,
           fieldName := some h.fieldName, typ := some (tagType h) }

/-- `BlockchainMonitor.fetch_events`.  `latest` is what
`get_latest_version` returned (`0` when the node errored); each handle
comes with its node response, `Except.error` covering both a raised
exception and a non-200 status (each of which contributes no events).
If the latest version has not advanced past the cursor the cycle is a
no-op; otherwise events with version above the cursor are collected, and
the in-memory cursor jumps to `latest` when any were. -/
def fetchedEvents (latest : Nat)
    (handles : List (Handle × Except Unit (List RawEvt)))
    (s : MonitorState) : List RawEvt :=
  if latest ≤ s.last then []
  else handles.flatMap fun hr =>
    match hr.2 with
    | .error _ => []
    | .ok evs =>
      (evs.filter fun e => s.last < e.version.getD 0).map (tagEvent hr.1)

/-- The state effect of `fetch_events`: after collecting, the in-memory
cursor jumps to `latest` when any events were collected and the latest
version is ahead of the cursor (the `if all_events and current_version >
self.last_processed_version` update). -/
def fetchEvents (latest : Nat)
    (handles : List (Handle × Except Unit (List RawEvt)))
    (s : MonitorState) : List RawEvt × MonitorState :=
  let all := fetchedEvents latest handles s
  if all = [] then (all, s)
  else if s.last < latest then (all, { s with last := latest })
  else (all, s)

/-- One poll cycle: `get_latest_version` (its result is `latest`), then
`fetch_events`, then `process_events` on whatever was fetched. -/
def cycleRun (latest : Nat)
    (handles : List (Handle × Except Unit (List RawEvt)))
    (now : String) (discord : Bool) (s : MonitorState) : MonitorState :=
  processEvents now (fetchEvents latest handles s).1 discord
    (fetchEvents latest handles s).2

/-! ### Cursor persistence (`_save_last_processed_version`) as file steps

`_save_last_processed_version` opens `last_version.txt` with mode `"w"`
and writes `str(version)`.  Opening with `"w"` truncates the file at once;
the write lands afterwards.  The model exposes the intermediate on-disk
states of that step sequence. -/

/-- The primitive file operations of a save: the truncation performed by
`open(..., "w")`, then the write of the rendered version. -/
inductive SaveStep where
  | truncate
  | write (content : String)
deriving DecidableEq

/-- The step sequence of `_save_last_processed_version(version)`. -/
def saveSteps (version : Nat) : List SaveStep :=
  [.truncate, .write (toString version)]

/-- Apply one file step to the current file content. -/
def applyStep : String → SaveStep → String
  | _, .truncate => ""
  | _, .write c => c

/-- The file content after the first `k` steps of a step list (a crash
after step `k` leaves exactly this on disk). -/
def fileAfter (initial : String) (steps : List SaveStep) (k : Nat) : String :=
  (steps.take k).foldl applyStep initial

/-- `int(f.read().strip())` in `_get_last_processed_version`: a digits
string parses; anything else throws and the `except` arm substitutes the
hard-coded default `2481600000`. -/
def readCursor (content : String) : Nat :=
  match parseAmount content with
  | some q => q.num.toNat
  | none => 2481600000

/-! ### The singleton cache (`utils/cache.py`) -/

/-- One cached entry: `{timestamp, data, ttl}`. -/
structure CacheData where
  timestamp : String
  data : String
  ttl : Option ℚ
deriving DecidableEq

/-- A `Cache` object's own state (its in-memory dict; the disk mirror is
only consulted on a memory miss and is not claim-relevant). -/
structure CacheObj where
  memoryCache : List (String × CacheData)
deriving DecidableEq

/-- The interpreter-wide state the singleton pattern lives in: the class
attribute `Cache._instance` and a heap of constructed objects. -/
structure PyWorld where
  instanceRef : Option Nat
  heap : Nat → Option CacheObj
  nextRef : Nat

/-- `Cache.__new__`: under the class lock, allocate and initialize the
object only when `_instance` is unset; always hand back `_instance`. -/
def cacheNew (w : PyWorld) : Nat × PyWorld :=
  match w.instanceRef with
  | some r => (r, w)
  | none =>
    let r := w.nextRef
    (r, { instanceRef := some r,
          heap := Function.update w.heap r (some ⟨[]⟩),
          nextRef := r + 1 })

/-- `Cache.set(key, value, ttl)` through reference `r`: store
`{timestamp, data, ttl}` in the object's memory dict (latest binding
first, shadowing earlier ones, as a dict update). -/
def cacheSet (w : PyWorld) (r : Nat) (key value : String) (ttl : Option ℚ)
    (now : String) : PyWorld :=
  match w.heap r with
  | none => w
  | some obj =>
    let entry : CacheData := { timestamp := now, data := value, ttl := ttl }
    let mem := (key, entry) :: obj.memoryCache.filter fun p => p.1 ≠ key
    { w with heap := Function.update w.heap r (some { memoryCache := mem }) }

/-- Seconds elapsed between two timestamps, supplied by the environment
(models `(datetime.now() - cached_time).total_seconds()`). -/
def cacheGet (w : PyWorld) (r : Nat) (key : String)
    (elapsed : String → ℚ) : Option String :=
  match w.heap r with
  | none => none
  | some obj =>
    match obj.memoryCache.find? (·.1 = key) with
    | none => none
    | some (_, cd) =>
      match cd.ttl with
      | some t => if elapsed cd.timestamp > t then none else some cd.data
      | none => some cd.data

/-! ### The resilient fetch client (`blockchain/client.py`) -/

/-- A cache entry of `AptosClient._cache_result`: `{data, timestamp}`. -/
structure ClientCacheEntry where
  data : String
  timestamp : ℚ
deriving DecidableEq

/-- `AptosClient._retry_async` as a function of the per-attempt outcomes:
attempt `0` is the initial call and attempts `1 .. maxRetries` the
retries; the first success wins, and `none` (all `maxRetries + 1`
attempts failed with a retryable error) models the raised
`AptosNodeUnavailableError`. -/
def retryAsync (maxRetries : Nat) (attempt : Nat → Option String) :
    Option String :=
  (List.range (maxRetries + 1)).findSome? attempt

/-- One backoff step: `delay = min(delay * 2 * (1 + jitter), max_delay)`. -/
def nextDelay (maxDelay delay jitter : ℚ) : ℚ :=
  min (delay * 2 * (1 + jitter)) maxDelay

/-- The successive delays `_retry_async` sleeps, one per failed attempt,
given the drawn jitters (each uniform in `[-retry_jitter, retry_jitter]`):
the `n`-th element is the delay slept before retry attempt `n + 1`. -/
def sleptDelays (d0 maxDelay : ℚ) : List ℚ → List ℚ
  | [] => []
  | j :: js =>
    nextDelay maxDelay d0 j :: sleptDelays (nextDelay maxDelay d0 j) maxDelay js

/-- `AptosClient._fetch_with_fallback`: fetch with retries; on success
overwrite the cache entry for the key with `{data, now}`; on exhaustion
return the cached entry if one exists (no age check, no marking of the
result) and propagate the unavailability error otherwise. -/
def fetchWithFallback (maxRetries : Nat) (attempt : Nat → Option String)
    (cache : Option ClientCacheEntry) (now : ℚ) :
    Except Unit String × Option ClientCacheEntry :=
  match retryAsync maxRetries attempt with
  | some d => (.ok d, some ⟨d, now⟩)
  | none =>
    match cache with
    | some entry => (.ok entry.data, some entry)
    | none => (.error (), none)

/-! ### Adaptive polling (`main.py`, `AptosAI._blockchain_worker`) -/

/-- The consecutive-empty-polls counter update: reset on a non-empty poll,
incremented otherwise. -/
def nextEmptyCount (c : Nat) (hasEvents : Bool) : Nat :=
  if hasEvents then 0 else c + 1

/-- The sleep interval chosen for the cycle, from the updated counter:
after more than `max_consecutive_empty = 5` empty polls,
`min(polling_interval * 2, polling_interval * 1.5)`; otherwise the base
interval. -/
def adaptiveInterval (p : ℚ) (c : Nat) : ℚ :=
  if 5 < c then min (p * 2) (p * (3 / 2)) else p

/-! ### Concrete inputs used to instantiate the theorems -/

/-- A raw event dict with no keys at all (everything optional absent). -/
def emptyEvt : RawEvt := {}

/-- Scenario D's raw event: a coin-store deposit carrying
`amount = "150000000"`. -/
def coinEvt : RawEvt :=
  { eventType := some "0x1::coin::CoinStore<0x1::aptos_coin::AptosCoin>/deposit_events"
    data := some { tokenDataId := none, amount := some "150000000",
                   typ := none, fromAddr := none, toAddr := none,
                   creator := none } }

/-- An event carrying `(version, sequence_number) = (1, 0)`. -/
def dupEvt : RawEvt := { version := some 1, sequenceNumber := some 0 }

/-- An event carrying `(version, sequence_number) = (5, 0)`. -/
def v5Evt : RawEvt := { version := some 5, sequenceNumber := some 0 }

/-- The events carried by a per-handle node response (`[]` for an error). -/
def respEvents : Except Unit (List RawEvt) → List RawEvt
  | .error _ => []
  | .ok evs => evs

/-- An event that carries its own timestamp. -/
def tsEvt : RawEvt := { timestamp := some "T" }

/-- A fresh monitor state with cursor `0`. -/
def monS0 : MonitorState :=
  { last := 0, file := "0", dispatches := [], postedEvents := [],
    discordPosted := [] }

/-- A monitor state with cursor `3` (used for the frame-effect cycle). -/
def monS3 : MonitorState :=
  { last := 3, file := "3", dispatches := [], postedEvents := [],
    discordPosted := [] }

/-- A coin-store deposit handle. -/
def coinHandle : Handle :=
  { account := "0x1", eventHandle := "0x1::coin::CoinStore",
    fieldName := "deposit_events" }

/-- An empty interpreter world: no `Cache` instance constructed yet. -/
def pyW0 : PyWorld := { instanceRef := none, heap := fun _ => none, nextRef := 0 }

end Cultivate

/-! ## Theorems -/

set_option maxRecDepth 100000

namespace Cultivate

/-- Helper: `postBlockchainEvent` does not change the cursor. -/
theorem postBlockchainEvent_last (c : CleanEvent) (s : MonitorState) :
    ((postBlockchainEvent c s).2).last = s.last := by
  by_cases h : discordEventId c ∈ s.postedEvents <;>
    simp [postBlockchainEvent, h]

/-- Helper: `postBlockchainEvent` does not touch the cursor file. -/
theorem postBlockchainEvent_file (c : CleanEvent) (s : MonitorState) :
    ((postBlockchainEvent c s).2).file = s.file := by
  by_cases h : discordEventId c ∈ s.postedEvents <;>
    simp [postBlockchainEvent, h]

/-- Helper: `postBlockchainEvent` does not touch the callback dispatch
log. -/
theorem postBlockchainEvent_dispatches (c : CleanEvent) (s : MonitorState) :
    ((postBlockchainEvent c s).2).dispatches = s.dispatches := by
  by_cases h : discordEventId c ∈ s.postedEvents <;>
    simp [postBlockchainEvent, h]

/-- Helper: one `process_events` step never lowers the in-memory cursor. -/
theorem processStep_last_le (now : String) (discord : Bool) (e : RawEvt)
    (s : MonitorState) : s.last ≤ (processStep now discord e s).last := by
  unfold processStep
  by_cases hv : s.last < e.version.getD 0 <;> cases discord <;>
    simp [hv, postBlockchainEvent_last] <;> omega

/-- Helper: one `process_events` step appends exactly the event's id to
the callback dispatch log. -/
theorem processStep_dispatches (now : String) (discord : Bool) (e : RawEvt)
    (s : MonitorState) :
    (processStep now discord e s).dispatches =
      s.dispatches ++ [eventId e] := by
  unfold processStep
  by_cases hv : s.last < e.version.getD 0 <;> cases discord <;>
    simp [hv, postBlockchainEvent_dispatches]

/-- Helper: a step on an event whose version does not exceed the cursor
leaves the cursor and the cursor file unchanged. -/
theorem processStep_frozen (now : String) (discord : Bool) (e : RawEvt)
    (s : MonitorState) (h : e.version.getD 0 ≤ s.last) :
    (processStep now discord e s).file = s.file ∧
    (processStep now discord e s).last = s.last := by
  have hv : ¬s.last < e.version.getD 0 := not_lt.mpr h
  unfold processStep
  cases discord <;>
    simp [hv, postBlockchainEvent_last, postBlockchainEvent_file]

/-- Helper: the `process_events` loop never lowers the in-memory cursor. -/
theorem processGo_last_le (now : String) (discord : Bool) :
    ∀ (evs : List RawEvt) (seen : List String) (s : MonitorState),
      s.last ≤ (processGo now discord evs seen s).last := by
  intro evs
  induction evs with
  | nil => intro seen s; simp [processGo]
  | cons e rest ih =>
    intro seen s
    simp only [processGo]
    by_cases hm : eventId e ∈ seen
    · rw [if_pos hm]; exact ih seen s
    · rw [if_neg hm]
      exact le_trans (processStep_last_le now discord e s) (ih _ _)

/-- Helper: when every event's version is at or below the cursor, the
`process_events` loop leaves the cursor and the cursor file unchanged. -/
theorem processGo_frozen (now : String) (discord : Bool) :
    ∀ (evs : List RawEvt) (seen : List String) (s : MonitorState),
      (∀ e ∈ evs, e.version.getD 0 ≤ s.last) →
      (processGo now discord evs seen s).file = s.file ∧
      (processGo now discord evs seen s).last = s.last := by
  intro evs
  induction evs with
  | nil => intro seen s _; simp [processGo]
  | cons e rest ih =>
    intro seen s h
    simp only [processGo]
    by_cases hm : eventId e ∈ seen
    · rw [if_pos hm]
      exact ih seen s fun x hx => h x (List.mem_cons_of_mem _ hx)
    · rw [if_neg hm]
      obtain ⟨hf, hl⟩ :=
        processStep_frozen now discord e s (h e (List.mem_cons_self _ _))
      have ihr := ih (eventId e :: seen) (processStep now discord e s)
        (fun x hx => by rw [hl]; exact h x (List.mem_cons_of_mem _ hx))
      exact ⟨by rw [ihr.1, hf], by rw [ihr.2, hl]⟩

/-- Helper: within one `process_events` call, any fixed id is appended to
the dispatch log at most once (none at all if it is already in the
call-local seen set). -/
theorem processGo_count_le (now : String) (discord : Bool) (eid : String) :
    ∀ (evs : List RawEvt) (seen : List String) (s : MonitorState),
      ((processGo now discord evs seen s).dispatches).count eid ≤
        s.dispatches.count eid + (if eid ∈ seen then 0 else 1) := by
  intro evs
  induction evs with
  | nil =>
    intro seen s
    simp only [processGo]
    split <;> omega
  | cons e rest ih =>
    intro seen s
    simp only [processGo]
    by_cases hm : eventId e ∈ seen
    · rw [if_pos hm]; exact ih seen s
    · rw [if_neg hm]
      have hih := ih (eventId e :: seen) (processStep now discord e s)
      by_cases heq : eid = eventId e
      · have hc : ((processStep now discord e s).dispatches).count eid =
            s.dispatches.count eid + 1 := by
          rw [processStep_dispatches, List.count_append, heq]; simp
        have hmem : eid ∈ eventId e :: seen := by
          rw [heq]; exact List.mem_cons_self _ _
        rw [if_pos hmem, hc] at hih
        rw [if_neg (heq ▸ hm)]
        omega
      · have hc : ((processStep now discord e s).dispatches).count eid =
            s.dispatches.count eid := by
          rw [processStep_dispatches, List.count_append]
          simp [List.count_cons, show eventId e ≠ eid from fun h => heq h.symm]
        have hmem : (eid ∈ eventId e :: seen) ↔ (eid ∈ seen) := by
          simp [List.mem_cons, heq]
        rw [hc] at hih
        by_cases hs : eid ∈ seen
        · rw [if_pos (hmem.mpr hs)] at hih
          rw [if_pos hs]
          omega
        · rw [if_neg (fun hx => hs (hmem.mp hx))] at hih
          rw [if_neg hs]
          omega

/-- Helper: the events component of `fetch_events` is `fetchedEvents` in
every branch. -/
theorem fetchEvents_fst (latest : Nat)
    (handles : List (Handle × Except Unit (List RawEvt)))
    (s : MonitorState) :
    (fetchEvents latest handles s).1 = fetchedEvents latest handles s := by
  unfold fetchEvents
  by_cases h1 : fetchedEvents latest handles s = [] <;>
    by_cases h2 : s.last < latest <;> simp [h1, h2]

/-- Helper: the state component of `fetch_events` never lowers the
cursor. -/
theorem fetchEvents_last_le (latest : Nat)
    (handles : List (Handle × Except Unit (List RawEvt)))
    (s : MonitorState) :
    s.last ≤ ((fetchEvents latest handles s).2).last := by
  unfold fetchEvents
  by_cases h1 : fetchedEvents latest handles s = []
  · simp [h1]
  · by_cases h2 : s.last < latest
    · simp [h1, h2]
      omega
    · simp [h1, h2]

/-- Helper: when every event in every successful handle response has
version at most `latest`, so does every collected event. -/
theorem fetchedEvents_version_le (latest : Nat)
    (handles : List (Handle × Except Unit (List RawEvt))) (s : MonitorState)
    (hvers : ∀ hr ∈ handles, ∀ e ∈ respEvents hr.2,
      e.version.getD 0 ≤ latest) :
    ∀ e ∈ fetchedEvents latest handles s, e.version.getD 0 ≤ latest := by
  intro e he
  unfold fetchedEvents at he
  by_cases h1 : latest ≤ s.last
  · simp [h1] at he
  · rw [if_neg h1] at he
    obtain ⟨hr, hhr, hin⟩ := List.mem_flatMap.mp he
    cases h2 : hr.2 with
    | error u => rw [h2] at hin; simp at hin
    | ok evs =>
      rw [h2] at hin
      obtain ⟨e0, he0, rfl⟩ := List.mem_map.mp hin
      have hv := hvers hr hhr e0
        (by simp only [respEvents, h2]; exact (List.mem_filter.mp he0).1)
      simpa [tagEvent] using hv

/-- C2: cursor monotonicity.  For every poll cycle — any reported latest
version (including `0`, which `get_latest_version` returns on a node
error), any combination of per-handle responses including fetch errors —
the cursor after the cycle is at least the cursor before it. -/
theorem c2_cursor_monotonic (latest : Nat)
    (handles : List (Handle × Except Unit (List RawEvt)))
    (now : String) (discord : Bool) (s : MonitorState) :
    s.last ≤ (cycleRun latest handles now discord s).last := by
  unfold cycleRun processEvents
  exact le_trans (fetchEvents_last_le latest handles s)
    (processGo_last_le now discord _ [] _)

/-- C9: in a cycle where `fetch_events` returns a non-empty batch — and
the node's responses only contain events at or below the reported latest
version — the persisted cursor file is untouched by `process_events`:
`fetch_events` has already raised the in-memory cursor to `latest`, so no
event's version exceeds it and the save path never runs.  Only the
in-memory cursor advances (to `latest`). -/
theorem c9_fetch_advance_no_persist (latest : Nat)
    (handles : List (Handle × Except Unit (List RawEvt)))
    (now : String) (discord : Bool) (s : MonitorState)
    (hvers : ∀ hr ∈ handles, ∀ e ∈ respEvents hr.2,
      e.version.getD 0 ≤ latest)
    (hne : (fetchEvents latest handles s).1 ≠ []) :
    (cycleRun latest handles now discord s).file = s.file ∧
    (cycleRun latest handles now discord s).last = latest := by
  have hall : fetchedEvents latest handles s ≠ [] := by
    rw [← fetchEvents_fst latest handles s]; exact hne
  have hlt : s.last < latest := by
    by_contra hc
    exact hall (by unfold fetchedEvents; rw [if_pos (not_lt.mp hc)])
  have hsnd : (fetchEvents latest handles s).2 = { s with last := latest } := by
    unfold fetchEvents
    simp [hall, hlt]
  unfold cycleRun processEvents
  rw [fetchEvents_fst latest handles s, hsnd]
  obtain ⟨hf, hl⟩ := processGo_frozen now discord
    (fetchedEvents latest handles s) []
    { s with last := latest }
    (fetchedEvents_version_le latest handles s hvers)
  exact ⟨hf, hl⟩

/-- Witness for C9: latest version `10`, cursor `3`, one handle returning
an event at version `5`: the cycle leaves the file untouched and moves
the in-memory cursor to `10`. -/
theorem c9_fetch_advance_no_persist_witness :
    (cycleRun 10 [(coinHandle, .ok [v5Evt])] "t" false monS3).file =
      monS3.file ∧
    (cycleRun 10 [(coinHandle, .ok [v5Evt])] "t" false monS3).last = 10 :=
  c9_fetch_advance_no_persist 10 [(coinHandle, .ok [v5Evt])] "t" false monS3
    (by decide) (by decide)

/-- C1 counterexample: the `processed_event_ids` dedup set is rebuilt on
every `process_events` call, so an event id dispatched in one poll cycle
is dispatched to the registered callbacks again when a later cycle
presents an event with the same `(version, sequence_number)`-derived id:
after two cycles each carrying the same event, the callbacks have
received its id twice — not at most once per process lifetime. -/
theorem c1_lifetime_dedup_counterexample :
    ((processEvents "t2" [dupEvt] true
        (processEvents "t1" [dupEvt] true monS0)).dispatches).count
      (eventId dupEvt) = 2 := by
  decide

/-- C1 (amended): deduplication is per `process_events` call, not per
process lifetime: within a single call each id is dispatched at most once
(so two events with identical `(version, sequence_number)` in one batch
yield exactly one dispatch), and the Discord sink separately skips any
event whose derived id is already in its process-lifetime `posted_events`
set; but registered callbacks can receive an already-dispatched id again
in a later cycle. -/
theorem c1_per_call_dedup_and_sink_dedup :
    (∀ (now : String) (evs : List RawEvt) (discord : Bool)
       (s : MonitorState) (eid : String),
      ((processEvents now evs discord s).dispatches).count eid ≤
        s.dispatches.count eid + 1) ∧
    (∀ (c : CleanEvent) (s : MonitorState),
      discordEventId c ∈ s.postedEvents →
      postBlockchainEvent c s = (false, s)) := by
  constructor
  · intro now evs discord s eid
    have h := processGo_count_le now discord eid evs [] s
    simpa using h
  · intro c s h
    unfold postBlockchainEvent
    rw [if_pos h]

/-- Helper: every delay `_retry_async` sleeps is capped at
`max_retry_delay`. -/
theorem sleptDelays_le_max (M : ℚ) :
    ∀ (js : List ℚ) (d0 : ℚ) (n : ℕ) (d : ℚ),
      (sleptDelays d0 M js).get? n = some d → d ≤ M := by
  intro js
  induction js with
  | nil => intro d0 n d h; simp [sleptDelays] at h
  | cons x xs ih =>
    intro d0 n d h
    cases n with
    | zero =>
      rw [sleptDelays, List.get?_cons_zero, Option.some_inj] at h
      rw [← h]
      exact min_le_right _ _
    | succ n =>
      rw [sleptDelays, List.get?_cons_succ] at h
      exact ih _ n d h

/-- Helper: while the cap is not in play, the `n`-th slept delay is the
initial delay compounded by `n + 1` factors, each in
`[2(1 − j), 2(1 + j)]`. -/
theorem sleptDelays_bounds (M j : ℚ) (hj0 : 0 ≤ j) (hj1 : j ≤ 1) :
    ∀ (js : List ℚ) (d0 : ℚ), 0 ≤ d0 → (∀ x ∈ js, |x| ≤ j) →
    ∀ (n : ℕ) (d : ℚ), (sleptDelays d0 M js).get? n = some d →
    d0 * (2 * (1 + j)) ^ (n + 1) ≤ M →
    d0 * (2 * (1 - j)) ^ (n + 1) ≤ d ∧ d ≤ d0 * (2 * (1 + j)) ^ (n + 1) := by
  intro js
  induction js with
  | nil => intro d0 _ _ n d h _; simp [sleptDelays] at h
  | cons x xs ih =>
    intro d0 hd0 hjs n d h hM
    have hx := abs_le.mp (hjs x (List.mem_cons_self _ _))
    have h1mj : (0 : ℚ) ≤ 1 - j := by linarith
    have h1px : (0 : ℚ) ≤ 1 + x := by linarith
    have hbase1 : (1 : ℚ) ≤ 2 * (1 + j) := by linarith
    cases n with
    | zero =>
      rw [sleptDelays, List.get?_cons_zero, Option.some_inj] at h
      rw [← h]
      unfold nextDelay
      simp only [zero_add, pow_one] at hM ⊢
      refine ⟨le_min (by nlinarith) (by nlinarith), ?_⟩
      calc min (d0 * 2 * (1 + x)) M ≤ d0 * 2 * (1 + x) := min_le_left _ _
        _ ≤ d0 * (2 * (1 + j)) := by nlinarith
    | succ n =>
      rw [sleptDelays, List.get?_cons_succ] at h
      have hMnn : (0 : ℚ) ≤ M := by
        have : (0 : ℚ) ≤ d0 * (2 * (1 + j)) ^ (n + 1 + 1) := by positivity
        linarith
      have hd1nn : 0 ≤ nextDelay M d0 x := le_min (by nlinarith) hMnn
      have hup : nextDelay M d0 x ≤ d0 * (2 * (1 + j)) :=
        le_trans (min_le_left _ _) (by nlinarith)
      have hpow1 : (2 * (1 + j)) ^ 1 ≤ (2 * (1 + j)) ^ (n + 1 + 1) :=
        pow_le_pow_right₀ hbase1 (by omega)
      have hlow : d0 * (2 * (1 - j)) ≤ nextDelay M d0 x := by
        refine le_min (by nlinarith) ?_
        have h1 : d0 * (2 * (1 - j)) ≤ d0 * (2 * (1 + j)) ^ (n + 1 + 1) := by
          rw [pow_one] at hpow1
          nlinarith
        linarith
      have hM' : nextDelay M d0 x * (2 * (1 + j)) ^ (n + 1) ≤ M := by
        have hpnn : (0 : ℚ) ≤ (2 * (1 + j)) ^ (n + 1) := by positivity
        calc nextDelay M d0 x * (2 * (1 + j)) ^ (n + 1)
            ≤ d0 * (2 * (1 + j)) * (2 * (1 + j)) ^ (n + 1) := by nlinarith
          _ = d0 * (2 * (1 + j)) ^ (n + 1 + 1) := by ring
          _ ≤ M := hM
      obtain ⟨hl, hu⟩ := ih (nextDelay M d0 x) hd1nn
        (fun y hy => hjs y (List.mem_cons_of_mem _ hy)) n d h hM'
      have hmnn : (0 : ℚ) ≤ (2 * (1 - j)) ^ (n + 1) := by positivity
      have hpnn : (0 : ℚ) ≤ (2 * (1 + j)) ^ (n + 1) := by positivity
      constructor
      · calc d0 * (2 * (1 - j)) ^ (n + 1 + 1)
            = d0 * (2 * (1 - j)) * (2 * (1 - j)) ^ (n + 1) := by ring
          _ ≤ nextDelay M d0 x * (2 * (1 - j)) ^ (n + 1) :=
              mul_le_mul_of_nonneg_right hlow hmnn
          _ ≤ d := hl
      · calc d ≤ nextDelay M d0 x * (2 * (1 + j)) ^ (n + 1) := hu
          _ ≤ d0 * (2 * (1 + j)) * (2 * (1 + j)) ^ (n + 1) := by nlinarith
          _ = d0 * (2 * (1 + j)) ^ (n + 1 + 1) := by ring

/-- C3 counterexample: with `initial_retry_delay = 1`,
`max_retry_delay = 60`, jitter factor `1/10` and a jitter draw of `0`
(within `[-1/10, 1/10]`), the delay slept before retry attempt `n = 1` is
`min(1 · 2 · (1 + 0), 60) = 2`, which exceeds the claimed interval's
upper end `(1 + j) · d0 · 2 ^ (n − 1) = 11/10`: the code multiplies by 2
*before* the first sleep, so the claimed `2 ^ (n−1)` schedule is off by
one doubling. -/
theorem c3_backoff_claim_counterexample :
    sleptDelays 1 60 [0] = [2] ∧
    |(0 : ℚ)| ≤ 1 / 10 ∧
    ¬((2 : ℚ) ≤ (1 + 1 / 10) * 1 * 2 ^ ((1 : ℕ) - 1)) := by
  refine ⟨?_, by norm_num, by norm_num⟩
  have h : nextDelay 60 1 0 = 2 := by
    unfold nextDelay
    rw [min_eq_left (by norm_num)]
    norm_num
  simp [sleptDelays, h]

/-- C3 (amended): the delay slept before retry attempt `n + 1` is
`min(delayₙ · 2 · (1 + jitterₙ), maxDelay)` with each jitter drawn from
`[−j, j]`; consequently every slept delay is capped at the configured
maximum delay, and as long as the cap is not reached the delay before
retry attempt `n + 1` lies in
`[d0 · (2(1 − j))^(n+1), d0 · (2(1 + j))^(n+1)]` — the jitter factors
compound and the exponent counts from 1, not `(1 ± j) · d0 · 2 ^ (n−1)`
as claimed. -/
theorem c3_backoff_bounds (d0 M j : ℚ) (js : List ℚ) (hd0 : 0 ≤ d0)
    (hj0 : 0 ≤ j) (hj1 : j ≤ 1) (hjs : ∀ x ∈ js, |x| ≤ j) (n : ℕ) (d : ℚ)
    (hd : (sleptDelays d0 M js).get? n = some d) :
    d ≤ M ∧
    (d0 * (2 * (1 + j)) ^ (n + 1) ≤ M →
      d0 * (2 * (1 - j)) ^ (n + 1) ≤ d ∧
      d ≤ d0 * (2 * (1 + j)) ^ (n + 1)) :=
  ⟨sleptDelays_le_max M js d0 n d hd,
   fun hM => sleptDelays_bounds M j hj0 hj1 js d0 hd0 hjs n d hd hM⟩

/-- Witness for C3's amended theorem: first retry with `d0 = 1`,
`M = 60`, `j = 1/10`, jitter draws `0, 0`. -/
theorem c3_backoff_bounds_witness :
    (2 : ℚ) ≤ 60 ∧
    ((1 : ℚ) * (2 * (1 + 1 / 10)) ^ (0 + 1) ≤ 60 →
      (1 : ℚ) * (2 * (1 - 1 / 10)) ^ (0 + 1) ≤ 2 ∧
      (2 : ℚ) ≤ 1 * (2 * (1 + 1 / 10)) ^ (0 + 1)) :=
  c3_backoff_bounds 1 60 (1 / 10) [0, 0] (by norm_num) (by norm_num)
    (by norm_num) (by intro x hx; simp at hx; rw [hx]; norm_num) 0 2
    (by have h : nextDelay 60 1 0 = 2 := by
          unfold nextDelay; rw [min_eq_left (by norm_num)]; norm_num
        simp [sleptDelays, h])

/-- Helper: `_retry_async` gives up exactly when all `maxRetries + 1`
attempts fail. -/
theorem retryAsync_eq_none_iff (m : ℕ) (attempt : ℕ → Option String) :
    retryAsync m attempt = none ↔ ∀ i < m + 1, attempt i = none := by
  unfold retryAsync
  rw [List.findSome?_eq_none_iff]
  constructor
  · intro h i hi
    exact h i (List.mem_range.mpr hi)
  · intro h i hi
    exact h i (List.mem_range.mp hi)

/-- C4 counterexample: the fallback result is *not* marked stale — on
retry exhaustion with a cache entry present, `_fetch_with_fallback`
returns the bare cached data, indistinguishable from a fresh successful
fetch of the same data. -/
theorem c4_no_stale_marking_counterexample :
    (fetchWithFallback 5 (fun _ => none) (some ⟨"data", 0⟩) 100).1 =
      (fetchWithFallback 5 (fun _ => some "data") none 100).1 := by
  rfl

/-- C4 (amended): `NodeUnavailable` propagates to the caller exactly when
all `maxRetries + 1` attempts fail and no cache entry exists; on
exhaustion with a cache entry present the entry's data is returned
regardless of its age (with no stale marking); every successful fetch
overwrites the cache entry for the query signature with the fresh data
and timestamp; and with `maxRetries = 5`, six failures and no cache entry
the error propagates, while a monitor cycle whose fetches all fail leaves
the cursor and the cursor file unchanged. -/
theorem c4_fallback_behavior :
    (∀ (m : ℕ) (attempt : ℕ → Option String)
       (cache : Option ClientCacheEntry) (now : ℚ),
      (fetchWithFallback m attempt cache now).1 = .error () ↔
        ((∀ i < m + 1, attempt i = none) ∧ cache = none)) ∧
    (∀ (m : ℕ) (attempt : ℕ → Option String) (entry : ClientCacheEntry)
       (now : ℚ),
      retryAsync m attempt = none →
      fetchWithFallback m attempt (some entry) now =
        (.ok entry.data, some entry)) ∧
    (∀ (m : ℕ) (attempt : ℕ → Option String) (d : String)
       (cache : Option ClientCacheEntry) (now : ℚ),
      retryAsync m attempt = some d →
      fetchWithFallback m attempt cache now = (.ok d, some ⟨d, now⟩)) ∧
    ((fetchWithFallback 5 (fun _ => none) none 0).1 = .error ()) ∧
    (∀ s0 : MonitorState,
      (cycleRun 100 [(coinHandle, .error ())] "t" true s0).last = s0.last ∧
      (cycleRun 100 [(coinHandle, .error ())] "t" true s0).file = s0.file) := by
  refine ⟨?_, ?_, ?_, by rfl, ?_⟩
  · intro m attempt cache now
    cases h : retryAsync m attempt with
    | some d =>
      simp only [fetchWithFallback, h]
      constructor
      · intro hx; cases hx
      · rintro ⟨ha, -⟩
        have hn := (retryAsync_eq_none_iff m attempt).mpr ha
        rw [h] at hn
        cases hn
    | none =>
      cases cache with
      | some e =>
        simp only [fetchWithFallback, h]
        constructor
        · intro hx; cases hx
        · rintro ⟨-, hc⟩; cases hc
      | none =>
        simp only [fetchWithFallback, h]
        constructor
        · intro _; exact ⟨(retryAsync_eq_none_iff m attempt).mp h, trivial⟩
        · intro _; trivial
  · intro m attempt entry now h
    simp [fetchWithFallback, h]
  · intro m attempt d cache now h
    simp [fetchWithFallback, h]
  · intro s0
    have hfe : fetchedEvents 100 [(coinHandle, .error ())] s0 = [] := by
      unfold fetchedEvents
      by_cases h : (100 : ℕ) ≤ s0.last <;> simp [h]
    constructor <;>
      simp [cycleRun, fetchEvents, hfe, processEvents, processGo]

/-- Witness for C4's amended theorem: exhaustion with a cached entry
returns it unchanged. -/
theorem c4_fallback_behavior_witness :
    fetchWithFallback 1 (fun _ => none) (some ⟨"d", 3⟩) 9 =
      (.ok "d", some ⟨"d", 3⟩) :=
  c4_fallback_behavior.2.1 1 (fun _ => none) ⟨"d", 3⟩ 9 (by decide)

/-- Witness for C1's amended theorem: a clean event whose derived id is
already in the sink's `posted_events` set is skipped, and a singleton
batch adds its id to the dispatch log at most once. -/
theorem c1_per_call_dedup_and_sink_dedup_witness :
    postBlockchainEvent (enrich tsEvt "t")
        { monS0 with postedEvents := [discordEventId (enrich tsEvt "t")] } =
      (false,
        { monS0 with postedEvents := [discordEventId (enrich tsEvt "t")] }) :=
  c1_per_call_dedup_and_sink_dedup.2 (enrich tsEvt "t")
    { monS0 with postedEvents := [discordEventId (enrich tsEvt "t")] }
    (List.mem_cons_self _ _)

/-- C5 counterexample: `_save_last_processed_version` is a plain
truncate-then-write (`open(..., "w")`), not write-then-replace.  With
`"5"` persisted, interrupting a save of `7` right after the truncate
leaves an empty file: the prior value is neither intact nor readable, and
the next startup falls back to the hard-coded default version. -/
theorem c5_save_truncates_counterexample :
    fileAfter "5" (saveSteps 7) 1 = "" ∧
    fileAfter "5" (saveSteps 7) 1 ≠ "5" ∧
    readCursor (fileAfter "5" (saveSteps 7) 1) = 2481600000 := by
  decide

/-- C5 (amended): `set(version)` writes the cursor file in place by
truncating and then writing; an interruption before the truncate leaves
the prior value, an interruption between truncate and write leaves an
empty file (the prior value is lost), and only an uninterrupted save
leaves the new value. -/
theorem c5_save_step_characterization (old : String) (v : Nat) (k : Nat)
    (hk : k ≤ 2) :
    fileAfter old (saveSteps v) k =
      if k = 0 then old else if k = 1 then "" else toString v := by
  interval_cases k <;> simp [fileAfter, saveSteps, applyStep]

/-- Witness for C5's amended theorem at `old = "5"`, `v = 7`, `k = 1`. -/
theorem c5_save_step_characterization_witness :
    fileAfter "5" (saveSteps 7) 1 =
      if 1 = 0 then "5" else if 1 = 1 then "" else toString 7 :=
  c5_save_step_characterization "5" 7 1 (by decide)

/-- C7: an event classified in the coin category (`coin_transfer`) whose
raw `data.amount` parses carries
`amount_apt = float(amount) / 100000000`, i.e. the raw amount divided by
`10 ^ 8`. -/
theorem c7_coin_amount_enrichment (e : RawEvt) (now : String) (a : String)
    (q : ℚ) (hcat : eventCategoryOf e = "coin_transfer")
    (hamt : rawAmountOf e = some a) (hparse : parseAmount a = some q) :
    (enrich e now).amountApt = some (q / 100000000) := by
  simp [enrich, amountAptOf, hcat, hamt, hparse]

/-- Witness for C7 (Scenario D): raw amount `"150000000"` on a
coin-transfer-classified event yields `amount_apt = 1.5`. -/
theorem c7_coin_amount_enrichment_witness :
    (enrich coinEvt "t").amountApt = some ((150000000 : ℚ) / 100000000) ∧
    ((150000000 : ℚ) / 100000000 = 3 / 2) :=
  ⟨c7_coin_amount_enrichment coinEvt "t" "150000000" 150000000 (by decide)
    (by decide) (by decide), by norm_num⟩

/-- C8: after more than five consecutive empty poll cycles the sleep
interval is scaled up to exactly `1.5×` the base polling interval (the
`min(2×, 1.5×)` cap), it never exceeds `1.5×` the base, and the first
non-empty cycle resets it to the base interval. -/
theorem c8_adaptive_backoff (p : ℚ) (c : Nat) (hasEvents : Bool)
    (hp : 0 ≤ p) :
    adaptiveInterval p (nextEmptyCount c hasEvents) ≤ (3 / 2) * p ∧
    (hasEvents = true → adaptiveInterval p (nextEmptyCount c hasEvents) = p) ∧
    (5 < nextEmptyCount c hasEvents →
      adaptiveInterval p (nextEmptyCount c hasEvents) = (3 / 2) * p) := by
  have hmin : min (p * 2) (p * (3 / 2)) = p * (3 / 2) :=
    min_eq_right (by nlinarith)
  cases hasEvents with
  | true =>
    have hc : nextEmptyCount c true = 0 := rfl
    have hi : adaptiveInterval p 0 = p := by simp [adaptiveInterval]
    rw [hc, hi]
    exact ⟨by linarith, fun _ => rfl, fun h => absurd h (by omega)⟩
  | false =>
    have hc : nextEmptyCount c false = c + 1 := rfl
    rw [hc]
    by_cases h5 : 5 < c + 1
    · have hi : adaptiveInterval p (c + 1) = p * (3 / 2) := by
        simp [adaptiveInterval, h5, hmin]
      rw [hi]
      exact ⟨by linarith, fun hev => absurd hev (by simp), fun _ => by ring⟩
    · have hi : adaptiveInterval p (c + 1) = p := by
        simp [adaptiveInterval, h5]
      rw [hi]
      exact ⟨by linarith, fun hev => absurd hev (by simp), fun h => absurd h h5⟩

/-- Witness for C8 at base interval `60` after ten consecutive empty
polls. -/
theorem c8_adaptive_backoff_witness :
    adaptiveInterval 60 (nextEmptyCount 10 false) ≤ (3 / 2) * 60 :=
  (c8_adaptive_backoff 60 10 false (by norm_num)).1

/-- C6 counterexample: on a raw event with no timestamp of its own (and no
natural identifier), two evaluations of the enrichment at different clock
readings produce different `id`s — the content-hash id is computed over
the `enriched` dict *including* the freshly generated timestamp, so it is
not a stable function of the canonical fields alone. -/
theorem c6_id_unstable_counterexample :
    (enrich emptyEvt "2025-01-01T00:00:00").id ≠
      (enrich emptyEvt "2025-01-01T00:00:01").id := by
  decide

/-- C6 (amended): enrichment is deterministic in every field except the
timestamp and the `id`: all other fields are functions of the raw input
alone, and whenever the raw input carries its own timestamp the whole
enrichment (id included) is a function of the raw input.  The
content-hash fallback id is a stable function of the canonical fields
*plus* the enrichment-time timestamp. -/
theorem c6_enrich_deterministic_except_id (e : RawEvt) (n1 n2 : String) :
    (enrich e n1).eventType = (enrich e n2).eventType ∧
    (enrich e n1).eventCategory = (enrich e n2).eventCategory ∧
    (enrich e n1).account = (enrich e n2).account ∧
    (enrich e n1).version = (enrich e n2).version ∧
    (enrich e n1).description = (enrich e n2).description ∧
    (enrich e n1).details = (enrich e n2).details ∧
    (enrich e n1).transactionUrl = (enrich e n2).transactionUrl ∧
    (enrich e n1).accountUrl = (enrich e n2).accountUrl ∧
    (enrich e n1).tokenName = (enrich e n2).tokenName ∧
    (enrich e n1).collectionName = (enrich e n2).collectionName ∧
    (enrich e n1).amountApt = (enrich e n2).amountApt ∧
    (∀ t, e.timestamp = some t → enrich e n1 = enrich e n2) :=
  ⟨rfl, rfl, rfl, rfl, rfl, rfl, rfl, rfl, rfl, rfl, rfl,
   fun t ht => by simp [enrich, ht]⟩

/-- Witness for C6's amended theorem: an event carrying its own timestamp
enriches identically under two different clock readings. -/
theorem c6_enrich_deterministic_except_id_witness :
    enrich tsEvt "a" = enrich tsEvt "b" :=
  (c6_enrich_deterministic_except_id tsEvt "a"
    "b").2.2.2.2.2.2.2.2.2.2.2 "T" rfl

/-- C10: the `Cache` class is a process-wide singleton.  In any
interpreter state whose `_instance` attribute (when set) points at a
constructed object, two constructions `Cache()` return the identical
reference, and a `set` through the first reference is observed by a `get`
(with no TTL) through the second. -/
theorem c10_cache_singleton (w : PyWorld)
    (hw : ∀ r, w.instanceRef = some r → (w.heap r).isSome) :
    (cacheNew w).1 = (cacheNew (cacheNew w).2).1 ∧
    ∀ key value now elapsed,
      cacheGet (cacheSet (cacheNew (cacheNew w).2).2 (cacheNew w).1 key value
          none now)
        (cacheNew (cacheNew w).2).1 key elapsed = some value := by
  cases h : w.instanceRef with
  | none =>
    constructor
    · simp [cacheNew, h]
    · intro key value now elapsed
      simp [cacheNew, h, cacheSet, cacheGet, Function.update, List.find?]
  | some r =>
    obtain ⟨obj, hobj⟩ := Option.isSome_iff_exists.mp (hw r h)
    constructor
    · simp [cacheNew, h]
    · intro key value now elapsed
      simp [cacheNew, h, cacheSet, cacheGet, hobj, Function.update,
        List.find?]

/-- Witness for C10 in the fresh interpreter world (no instance yet). -/
theorem c10_cache_singleton_witness :
    (cacheNew pyW0).1 = (cacheNew (cacheNew pyW0).2).1 ∧
    cacheGet (cacheSet (cacheNew (cacheNew pyW0).2).2 (cacheNew pyW0).1 "k"
        "v" none "now")
      (cacheNew (cacheNew pyW0).2).1 "k" (fun _ => 0) = some "v" := by
  have h := c10_cache_singleton pyW0 (by intro r hr; simp [pyW0] at hr)
  exact ⟨h.1, h.2 "k" "v" "now" (fun _ => 0)⟩

end Cultivate
